import Mathlib

/-!
Verification development for the arb-scanner core: a shallow embedding of the
opportunity evaluator (arb_scanner/scanner.py), the snapshot pairing helpers
(arb_scanner/models.py), the paper-trading executor (arb_scanner/paper_executor.py)
and the daemon batch cursor (daemon.py), together with theorems settling the
specification claims about them.

Python floats are embedded as rationals (exact arithmetic), Python ints as ℤ/ℕ,
optional values as Option, and the SQLite-backed paper ledger as an explicit
state record threaded through the operations.
-/

namespace ArbScanner

/-! ### Data model (arb_scanner/models.py) -/

/-- ASCII lowercasing of a string, embedding Python str.lower as used on the
venue payloads (which are ASCII). -/
def lower_string (s : String) : String :=
  String.mk (s.data.map Char.toLower)

/-- Market record (models.py). -/
structure Market where
  venue : String
  market_id : String
  question : String
  outcomes : List String
deriving DecidableEq

/-- Embeds the Market.is_binary property of models.py: exactly two outcomes and
the set of lowercased outcomes equals the pair of labels yes and no. -/
def Market.is_binary (m : Market) : Bool :=
  m.outcomes.length == 2 &&
    m.outcomes.all (fun o => lower_string o == "yes" || lower_string o == "no") &&
    m.outcomes.any (fun o => lower_string o == "yes") &&
    m.outcomes.any (fun o => lower_string o == "no")

/-- Top-of-book record (models.py). The scanner treats prices and sizes as
possibly absent, hence Option fields. -/
structure OrderBookTop where
  best_yes_price : Option ℚ
  best_yes_size : Option ℚ
  best_no_price : Option ℚ
  best_no_size : Option ℚ
deriving DecidableEq

/-- Snapshot of one market (models.py). -/
structure MarketSnapshot where
  market : Market
  orderbook : OrderBookTop
deriving DecidableEq

/-- Opportunity record, with the fields the evaluator in scanner.py constructs. -/
structure Opportunity where
  question : String
  outcomes : List String
  buy_yes_venue : String
  buy_yes_price : ℚ
  buy_no_venue : String
  buy_no_price : ℚ
  sum_price : ℚ
  executable_size : ℚ
  edge : ℚ
deriving DecidableEq

/-- Embeds normalize_question of models.py: lowercase, then split on whitespace
and re-join the words with single spaces. -/
def words_aux : List Char → List Char → List String
  | [], acc => if acc.isEmpty then [] else [String.mk acc.reverse]
  | c :: cs, acc =>
    if c.isWhitespace then
      if acc.isEmpty then words_aux cs [] else String.mk acc.reverse :: words_aux cs []
    else words_aux cs (c :: acc)

/-- The whitespace split of Python str.split with no separator argument:
maximal runs of non-whitespace characters. -/
def split_whitespace (s : String) : List String := words_aux s.data []

/-- Joining a word list with single spaces (the " ".join of normalize_question). -/
def join_space : List String → String
  | [] => ""
  | [w] => w
  | w :: ws => w ++ " " ++ join_space ws

/-- normalize_question of models.py. -/
def normalize_question (question : String) : String :=
  join_space (split_whitespace (lower_string question))

/-- The dict built by iter_pairs over the venue-B snapshots, keyed by the
normalized question: later list entries overwrite earlier ones, so looking up a
key returns the last snapshot with that normalized question. -/
def question_index_lookup (key : String) (markets_b : List MarketSnapshot) :
    Option MarketSnapshot :=
  markets_b.foldl
    (fun acc ms => if normalize_question ms.market.question == key then some ms else acc) none

/-- iter_pairs of models.py: each venue-A snapshot is paired with the venue-B
snapshot found in the normalized-question index, when one exists. -/
def iter_pairs (markets_a markets_b : List MarketSnapshot) :
    List (MarketSnapshot × MarketSnapshot) :=
  markets_a.filterMap (fun ms =>
    (question_index_lookup (normalize_question ms.market.question) markets_b).map
      (fun b => (ms, b)))

/-! ### Config (arb_scanner/config.py) -/

/-- ScannerConfig of config.py. fee_buffer_bps is an int in the source. -/
structure ScannerConfig where
  dry_run : Bool
  mode : String
  alert_only : Bool
  alert_threshold : ℚ
  min_edge_opportunity : ℚ
  min_executable_size : ℚ
  near_miss_edge_floor : ℚ
  near_miss_edge_ceiling : Option ℚ
  near_miss_include_weird_sums : Bool
  fee_buffer_bps : ℤ
deriving DecidableEq

/-! ### Opportunity evaluator (arb_scanner/scanner.py) -/

/-- Embeds the price normalizer of scanner.py: None passes through, a price
greater than 1 is divided by 100, any other price is passed through unchanged. -/
def normalize_price_to_prob : Option ℚ → Option ℚ
  | none => none
  | some p => if p > 1 then some (p / 100) else some p

/-- Fee buffer of scanner.py: cost times fee_buffer_bps over ten thousand. -/
def fee_buffer (cost : ℚ) (config : ScannerConfig) : ℚ :=
  cost * ((config.fee_buffer_bps : ℚ) / 10000)

/-- Threshold selection of scanner.py: alert_threshold when alert_only is set,
min_edge_opportunity otherwise. -/
def min_edge_for_opportunities (config : ScannerConfig) : ℚ :=
  if config.alert_only then config.alert_threshold else config.min_edge_opportunity

/-- Embeds the Python expression float(size or 0): an absent size counts as 0. -/
def size_or_zero (s : Option ℚ) : ℚ := s.getD 0

/-- One direction of the evaluator loop body in compute_opportunities: if both
normalized prices are present, compute cost, buffered edge and executable size,
and emit an Opportunity exactly when the edge and size thresholds are met. -/
def direction_opportunity (config : ScannerConfig) (question : String)
    (outcomes : List String) (yes_venue : String) (yes_price yes_size : Option ℚ)
    (no_venue : String) (no_price no_size : Option ℚ) : Option Opportunity :=
  match normalize_price_to_prob yes_price, normalize_price_to_prob no_price with
  | some y, some n =>
    let cost := y + n
    let edge := 1 - cost - fee_buffer cost config
    let exe := min (size_or_zero yes_size) (size_or_zero no_size)
    if min_edge_for_opportunities config ≤ edge ∧ config.min_executable_size ≤ exe then
      some { question := question, outcomes := outcomes, buy_yes_venue := yes_venue,
             buy_yes_price := y, buy_no_venue := no_venue, buy_no_price := n,
             sum_price := cost, executable_size := exe, edge := edge }
    else none
  | _, _ => none

/-- The two directions evaluated for one pair in compute_opportunities; the
non-binary gate drops the pair. Both directions label the result with the
venue-A question and outcomes, as the source does. -/
def pair_opportunities (config : ScannerConfig) (a b : MarketSnapshot) :
    List Opportunity :=
  if a.market.is_binary && b.market.is_binary then
    (direction_opportunity config a.market.question a.market.outcomes
        a.market.venue a.orderbook.best_yes_price a.orderbook.best_yes_size
        b.market.venue b.orderbook.best_no_price b.orderbook.best_no_size).toList ++
    (direction_opportunity config a.market.question a.market.outcomes
        b.market.venue b.orderbook.best_yes_price b.orderbook.best_yes_size
        a.market.venue a.orderbook.best_no_price a.orderbook.best_no_size).toList
  else []

/-- Descending-edge ordering used by the final sort of the evaluator. -/
def edge_ge (o1 o2 : Opportunity) : Prop := o2.edge ≤ o1.edge

instance : DecidableRel edge_ge := fun o1 o2 => inferInstanceAs (Decidable (o2.edge ≤ o1.edge))

instance : IsTotal Opportunity edge_ge := ⟨fun o1 o2 => le_total o2.edge o1.edge⟩

instance : IsTrans Opportunity edge_ge := ⟨fun _ _ _ h1 h2 => le_trans h2 h1⟩

/-- The final list.sort(key edge, reverse) of the evaluator: a stable descending
sort on the edge, embedded as a stable insertion sort under edge_ge. -/
def sort_by_edge_desc (l : List Opportunity) : List Opportunity :=
  l.insertionSort edge_ge

/-- The opportunity list accumulated by the loop of compute_opportunities,
before the final sort. -/
def generated_opportunities (snapshots_a snapshots_b : List MarketSnapshot)
    (config : ScannerConfig) : List Opportunity :=
  (iter_pairs snapshots_a snapshots_b).flatMap (fun p => pair_opportunities config p.1 p.2)

/-- compute_opportunities of scanner.py. -/
def compute_opportunities (snapshots_a snapshots_b : List MarketSnapshot)
    (config : ScannerConfig) : List Opportunity :=
  sort_by_edge_desc (generated_opportunities snapshots_a snapshots_b config)

/-! ### Mapping-pair evaluator (arb_scanner/scanner.py, mappings.py) -/

/-- MarketMapping of mappings.py. -/
structure MarketMapping where
  kalshi_ticker : String
  polymarket_slug : String
  polymarket_yes_token_id : Option String
  polymarket_no_token_id : Option String
deriving DecidableEq

/-- The market-id index of scanner.py; dict insertion keeps the last snapshot
for a repeated market id. -/
def index_by_market_id (snapshots : List MarketSnapshot) (mid : String) :
    Option MarketSnapshot :=
  snapshots.foldl (fun acc s => if s.market.market_id == mid then some s else acc) none

/-- The two directions evaluated for one resolved mapping pair in
compute_opportunities_from_mapping_pairs. -/
def mapping_pair_opportunities (config : ScannerConfig) (k p : MarketSnapshot) :
    List Opportunity :=
  if k.market.is_binary && p.market.is_binary then
    (direction_opportunity config (k.market.market_id ++ " ↔ " ++ p.market.market_id)
        ["YES", "NO"]
        k.market.venue k.orderbook.best_yes_price k.orderbook.best_yes_size
        p.market.venue p.orderbook.best_no_price p.orderbook.best_no_size).toList ++
    (direction_opportunity config (k.market.market_id ++ " ↔ " ++ p.market.market_id)
        ["YES", "NO"]
        p.market.venue p.orderbook.best_yes_price p.orderbook.best_yes_size
        k.market.venue k.orderbook.best_no_price k.orderbook.best_no_size).toList
  else []

/-- The opportunity list accumulated by compute_opportunities_from_mapping_pairs
before its final sort. -/
def generated_mapping_opportunities (kalshi_snaps poly_snaps : List MarketSnapshot)
    (mappings : List MarketMapping) (config : ScannerConfig) : List Opportunity :=
  mappings.flatMap (fun mp =>
    match index_by_market_id kalshi_snaps mp.kalshi_ticker,
        index_by_market_id poly_snaps mp.polymarket_slug with
    | some k, some p => mapping_pair_opportunities config k p
    | _, _ => [])

/-- compute_opportunities_from_mapping_pairs of scanner.py. -/
def compute_opportunities_from_mapping_pairs (kalshi_snaps poly_snaps : List MarketSnapshot)
    (mappings : List MarketMapping) (config : ScannerConfig) : List Opportunity :=
  sort_by_edge_desc (generated_mapping_opportunities kalshi_snaps poly_snaps mappings config)

/-! ### Intra-venue near-miss evaluation (format_near_miss_pairs_table) -/

/-- A row of the near-miss table of scanner.py (formatting fields only). -/
structure NearMissRow where
  market_id : String
  yes_ask : ℚ
  no_ask : ℚ
  sum_price : ℚ
  edge : ℚ
  executable_size : ℚ
  flag : String
deriving DecidableEq

/-- The keep predicate closed over the config inside format_near_miss_pairs_table. -/
def near_miss_keep (config : ScannerConfig) (edge exe : ℚ) : Prop :=
  config.near_miss_edge_floor ≤ edge ∧ config.min_executable_size ≤ exe

instance (config : ScannerConfig) (edge exe : ℚ) : Decidable (near_miss_keep config edge exe) :=
  inferInstanceAs (Decidable (_ ∧ _))

/-- The normal-sum window of the intra-venue branch: cost in the interval from
0.90 to 1.10. -/
def normal_like_cost (cost : ℚ) : Prop := (0.90 : ℚ) ≤ cost ∧ cost ≤ (1.10 : ℚ)

instance (cost : ℚ) : Decidable (normal_like_cost cost) :=
  inferInstanceAs (Decidable (_ ∧ _))

/-- The intra-venue (Kalshi standalone) loop body of format_near_miss_pairs_table:
the row produced for one snapshot, when any. -/
def intra_near_miss_row (config : ScannerConfig) (s : MarketSnapshot) :
    Option NearMissRow :=
  if s.market.is_binary then
    match normalize_price_to_prob s.orderbook.best_yes_price,
        normalize_price_to_prob s.orderbook.best_no_price with
    | some y, some n =>
      let cost := y + n
      let edge := 1 - cost - fee_buffer cost config
      let exe := min (size_or_zero s.orderbook.best_yes_size)
        (size_or_zero s.orderbook.best_no_size)
      if ¬ normal_like_cost cost ∧ config.near_miss_include_weird_sums = false then none
      else if near_miss_keep config edge exe then
        some { market_id := s.market.market_id, yes_ask := y, no_ask := n,
               sum_price := cost, edge := edge, executable_size := exe,
               flag := if normal_like_cost cost then "OK" else "WEIRD_SUM" }
      else none
    | _, _ => none
  else none

/-- The intra-venue rows list of format_near_miss_pairs_table (before the final
sort and display truncation). -/
def intra_near_miss_rows (snapshots_a : List MarketSnapshot) (config : ScannerConfig) :
    List NearMissRow :=
  snapshots_a.filterMap (intra_near_miss_row config)

end ArbScanner

namespace ArbScanner

/-! ### Paper executor (arb_scanner/paper_executor.py) -/

/-- PaperConfig of paper_executor.py. -/
structure PaperConfig where
  settle_after_secs : ℤ
  fee_bps : ℚ
  min_free_balance : ℚ
deriving DecidableEq

/-- Leg of paper_executor.py. -/
structure Leg where
  venue : String
  market_id : String
  side : String
  action : String
  price : ℚ
  size_avail : ℚ
deriving DecidableEq

/-- TradePlan of paper_executor.py. -/
structure TradePlan where
  kind : String
  buf_edge : ℚ
  sum_price : ℚ
  size : ℚ
  legs : Leg × Leg
  details : String
deriving DecidableEq

/-- Row of the paper_trades table. uuid trade ids are embedded as naturals
drawn from a per-state counter (uuids are fresh names). -/
structure PaperTrade where
  trade_id : ℕ
  ts_open : ℤ
  ts_close : Option ℤ
  status : String
  kind : String
  size : ℚ
  sum_price : ℚ
  buf_edge : ℚ
  expected_profit : ℚ
  details : String
deriving DecidableEq

/-- Row of the paper_orders table. -/
structure PaperOrder where
  order_id : ℕ
  trade_id : ℕ
  ts : ℤ
  venue : String
  market_id : String
  side : String
  action : String
  price : ℚ
  size : ℚ
  status : String
  filled_size : ℚ
  details : String
deriving DecidableEq

/-- The paper ledger: the free/locked/realized_pnl values of paper_state plus
the paper_trades and paper_orders tables, and the id counter. -/
structure PaperState where
  free : ℚ
  locked : ℚ
  realized_pnl : ℚ
  trades : List PaperTrade
  orders : List PaperOrder
  next_id : ℕ
deriving DecidableEq

/-- The locked capital of a paper trade (sum_price times size), as recomputed
by maybe_settle. -/
def PaperTrade.cost (t : PaperTrade) : ℚ := t.sum_price * t.size

/-- Classification of the try_execute outcome string: the source formats a
reason string whose leading word is the classification; the embedding keeps
the classification and the identifying fields and drops the number formatting. -/
inductive ExecReason where
  | insufficient_liquidity (venue market_id side : String)
  | insufficient_balance
  | executed (trade_id : ℕ)
deriving DecidableEq

/-- The paper order inserted for one leg by try_execute (instant fill). -/
def order_for_leg (oid tid : ℕ) (ts : ℤ) (plan : TradePlan) (leg : Leg) : PaperOrder :=
  { order_id := oid, trade_id := tid, ts := ts, venue := leg.venue,
    market_id := leg.market_id, side := leg.side, action := leg.action,
    price := leg.price, size := plan.size, status := "filled",
    filled_size := plan.size, details := "paper fill at top-of-book" }

/-- try_execute of paper_executor.py: validate leg liquidity in order, then the
free-balance floor; on success insert two filled orders and one open trade and
move cost from free to locked, all in one step. -/
def try_execute (cfg : PaperConfig) (now : ℤ) (st : PaperState) (plan : TradePlan) :
    PaperState × Bool × ExecReason :=
  if plan.legs.1.size_avail < plan.size then
    (st, false, .insufficient_liquidity plan.legs.1.venue plan.legs.1.market_id plan.legs.1.side)
  else if plan.legs.2.size_avail < plan.size then
    (st, false, .insufficient_liquidity plan.legs.2.venue plan.legs.2.market_id plan.legs.2.side)
  else
    let cost := plan.sum_price * plan.size
    if st.free - cost < cfg.min_free_balance then
      (st, false, .insufficient_balance)
    else
      let tid := st.next_id
      let expected_profit := (1 - plan.sum_price) * plan.size
      let trade : PaperTrade :=
        { trade_id := tid, ts_open := now, ts_close := none, status := "open",
          kind := plan.kind, size := plan.size, sum_price := plan.sum_price,
          buf_edge := plan.buf_edge, expected_profit := expected_profit,
          details := plan.details }
      ({ free := st.free - cost, locked := st.locked + cost,
         realized_pnl := st.realized_pnl,
         trades := st.trades ++ [trade],
         orders := st.orders ++ [order_for_leg (tid + 1) tid now plan plan.legs.1,
                                 order_for_leg (tid + 2) tid now plan plan.legs.2],
         next_id := st.next_id + 3 }, true, .executed tid)

/-- Ascending ts_open ordering used by paper_list_open_trades. -/
def ts_le (t1 t2 : PaperTrade) : Prop := t1.ts_open ≤ t2.ts_open

instance : DecidableRel ts_le := fun t1 t2 => inferInstanceAs (Decidable (t1.ts_open ≤ t2.ts_open))

instance : IsTotal PaperTrade ts_le := ⟨fun t1 t2 => le_total t1.ts_open t2.ts_open⟩

instance : IsTrans PaperTrade ts_le := ⟨fun _ _ _ h1 h2 => le_trans h1 h2⟩

/-- The rows with status open in the paper_trades table. -/
def open_trades (trades : List PaperTrade) : List PaperTrade :=
  trades.filter (fun t => t.status == "open")

/-- paper_list_open_trades of storage.py: open trades ordered by ts_open
ascending, truncated by the limit. -/
def paper_list_open_trades (trades : List PaperTrade) (limit : ℕ) : List PaperTrade :=
  ((open_trades trades).insertionSort ts_le).take limit

/-- The loop state of maybe_settle: running balances plus the ids of trades
closed so far, in order. -/
structure SettleAcc where
  free : ℚ
  locked : ℚ
  pnl : ℚ
  closed_ids : List ℕ
deriving DecidableEq

/-- One iteration of the maybe_settle loop: a trade young enough is skipped;
a mature one unlocks max(0, locked - cost), returns cost plus expected profit
to free, and adds the expected profit to realized pnl. -/
def settle_step (cfg : PaperConfig) (now : ℤ) (acc : SettleAcc) (t : PaperTrade) :
    SettleAcc :=
  if now - t.ts_open < cfg.settle_after_secs then acc
  else
    { free := acc.free + t.cost + t.expected_profit,
      locked := max 0 (acc.locked - t.cost),
      pnl := acc.pnl + t.expected_profit,
      closed_ids := acc.closed_ids ++ [t.trade_id] }

/-- The paper_close_trade updates performed at the end of maybe_settle: every
trade whose id was settled is marked closed at the settle time. -/
def close_marked (now : ℤ) (ids : List ℕ) (trades : List PaperTrade) :
    List PaperTrade :=
  trades.map (fun t =>
    if ids.contains t.trade_id then { t with status := "closed", ts_close := some now } else t)

/-- maybe_settle of paper_executor.py: fold the settle loop over the open
trades (ts_open ascending, limit 10000), then write balances and mark the
settled trades closed; returns the new state and the number closed. -/
def maybe_settle (cfg : PaperConfig) (now : ℤ) (st : PaperState) : PaperState × ℕ :=
  let opens := paper_list_open_trades st.trades 10000
  let acc := opens.foldl (settle_step cfg now) ⟨st.free, st.locked, st.realized_pnl, []⟩
  ({ st with
      free := acc.free, locked := acc.locked, realized_pnl := acc.pnl,
      trades := close_marked now acc.closed_ids st.trades }, acc.closed_ids.length)

/-- A public operation on the paper executor. -/
inductive PaperOp where
  | execute (now : ℤ) (plan : TradePlan)
  | settle (now : ℤ)
deriving DecidableEq

/-- The state reached after one public operation (discarding the returned
ok/reason or count). -/
def paper_step (cfg : PaperConfig) (st : PaperState) : PaperOp → PaperState
  | .execute now plan => (try_execute cfg now st plan).1
  | .settle now => (maybe_settle cfg now st).1

/-- The state reached from a state after a sequence of public operations. -/
def run_paper_ops (cfg : PaperConfig) (st : PaperState) (ops : List PaperOp) : PaperState :=
  ops.foldl (paper_step cfg) st

/-- The fresh ledger: bankroll free, nothing locked, no realized pnl, empty
tables. -/
def init_paper_state (bankroll : ℚ) : PaperState :=
  { free := bankroll, locked := 0, realized_pnl := 0, trades := [], orders := [], next_id := 0 }

/-! ### Daemon batch cursor (daemon.py) -/

/-- iter_batches of daemon.py: the batch is the slice of batch_size items at
the cursor, wrapping modulo the universe size, and the new cursor advances by
batch_size modulo the universe size. -/
def iter_batches (items : List String) (start batch_size : ℕ) : List String × ℕ :=
  let n := items.length
  if n = 0 then ([], 0)
  else
    let s := start % n
    let e := s + batch_size
    let batch := if e ≤ n then (items.drop s).take (e - s)
                 else items.drop s ++ items.take (e % n)
    (batch, (s + batch_size) % n)

/-- The union (as a concatenation) of the batches of k successive iter_batches
calls, each call receiving the cursor returned by the previous one. -/
def iter_batches_n (items : List String) (start k batch_size : ℕ) : List String :=
  match k with
  | 0 => []
  | k + 1 =>
    (iter_batches items start batch_size).1 ++
      iter_batches_n items (iter_batches items start batch_size).2 k batch_size

end ArbScanner

namespace ArbScanner

/-! ### Ledger bookkeeping definitions used by the invariant claims -/

/-- Total locked cost of a list of trades. -/
def sum_costs (l : List PaperTrade) : ℚ := (l.map PaperTrade.cost).sum

/-- The ledger invariant maintained by the paper executor (under non-negative
plan costs): the balance identity, the fact that locked equals the total cost
of the open trades, non-negativity of the open costs, and uniqueness plus
freshness of the trade ids (trade_id is a primary key in the store). -/
def ledger_inv (bankroll : ℚ) (st : PaperState) : Prop :=
  st.free + st.locked = bankroll + st.realized_pnl ∧
    st.locked = sum_costs (open_trades st.trades) ∧
    (∀ t ∈ open_trades st.trades, 0 ≤ t.cost) ∧
    (st.trades.map PaperTrade.trade_id).Nodup ∧
    (∀ t ∈ st.trades, t.trade_id < st.next_id)

/-- An operation whose plan locks a non-negative cost (settle operations are
unrestricted). -/
def nonneg_cost_op : PaperOp → Prop
  | .execute _ plan => 0 ≤ plan.sum_price * plan.size
  | .settle _ => True

instance (op : PaperOp) : Decidable (nonneg_cost_op op) := by
  cases op with
  | execute now plan => exact inferInstanceAs (Decidable (0 ≤ plan.sum_price * plan.size))
  | settle now => exact inferInstanceAs (Decidable True)

/-! ### Concrete inputs used by the counterexamples and witnesses -/

/-- Config exercising the evaluator with zero thresholds and no fee buffer. -/
def c1cfg : ScannerConfig :=
  { dry_run := true, mode := "lab", alert_only := false, alert_threshold := 0.02,
    min_edge_opportunity := 0, min_executable_size := 0, near_miss_edge_floor := -0.01,
    near_miss_edge_ceiling := none, near_miss_include_weird_sums := true,
    fee_buffer_bps := 0 }

/-- Binary snapshot with cheap prices and zero displayed size on both sides. -/
def c1a : MarketSnapshot :=
  { market := { venue := "Kalshi", market_id := "A1", question := "q",
                outcomes := ["Yes", "No"] },
    orderbook := { best_yes_price := some 0.4, best_yes_size := some 0,
                   best_no_price := some 0.4, best_no_size := some 0 } }

/-- Binary snapshot paired with c1a by question, also with zero sizes. -/
def c1b : MarketSnapshot :=
  { market := { venue := "Polymarket", market_id := "B1", question := "q",
                outcomes := ["Yes", "No"] },
    orderbook := { best_yes_price := some 0.4, best_yes_size := some 0,
                   best_no_price := some 0.4, best_no_size := some 0 } }

/-- Paper config with the default one-hour settle window and zero floor. -/
def c2cfg : PaperConfig := { settle_after_secs := 3600, fee_bps := 0, min_free_balance := 0 }

/-- A leg with ten units available. -/
def c2leg : Leg :=
  { venue := "Kalshi", market_id := "T1", side := "YES", action := "BUY",
    price := 0.5, size_avail := 10 }

/-- Plan locking cost 5 (sum_price 1, size 5). -/
def c2planA : TradePlan :=
  { kind := "cross_venue", buf_edge := 0.01, sum_price := 1, size := 5,
    legs := (c2leg, c2leg), details := "" }

/-- Plan with a negative sum_price, locking a negative cost of minus 3. -/
def c2planB : TradePlan :=
  { kind := "cross_venue", buf_edge := 0.01, sum_price := -3, size := 1,
    legs := (c2leg, c2leg), details := "" }

/-- Open the positive-cost then the negative-cost trade, then settle both. -/
def c2ops : List PaperOp := [.execute 0 c2planA, .execute 1 c2planB, .settle 10000]

def c3cfg : PaperConfig := { settle_after_secs := 3600, fee_bps := 0, min_free_balance := 0 }

def c3leg1 : Leg :=
  { venue := "Kalshi", market_id := "T1", side := "YES", action := "BUY",
    price := 0.48, size_avail := 50 }

def c3leg2 : Leg :=
  { venue := "Polymarket", market_id := "S1", side := "NO", action := "BUY",
    price := 0.49, size_avail := 50 }

/-- The plan of the round-trip scenario: sum_price 0.97, size 10. -/
def c3plan : TradePlan :=
  { kind := "cross_venue", buf_edge := 0.02, sum_price := 0.97, size := 10,
    legs := (c3leg1, c3leg2), details := "" }

/-- The ledger after the round-trip execution, before settlement. -/
def c3mid : PaperState := (try_execute c3cfg 0 (init_paper_state 1000) c3plan).1

def c4cfg : PaperConfig := { settle_after_secs := 3600, fee_bps := 0, min_free_balance := 0 }

/-- A leg with only five units available. -/
def c4leg : Leg :=
  { venue := "Kalshi", market_id := "T1", side := "YES", action := "BUY",
    price := 0.5, size_avail := 5 }

/-- A plan of size 10, failing both the liquidity and the balance check from a
zero bankroll. -/
def c4plan : TradePlan :=
  { kind := "cross_venue", buf_edge := 0.02, sum_price := 1, size := 10,
    legs := (c4leg, c4leg), details := "" }

/-- Config whose near-miss floor is minus 0.01 and opportunity threshold 0,
with weird sums excluded. -/
def c6cfg : ScannerConfig :=
  { dry_run := true, mode := "lab", alert_only := false, alert_threshold := 0.02,
    min_edge_opportunity := 0, min_executable_size := 1, near_miss_edge_floor := -0.01,
    near_miss_edge_ceiling := none, near_miss_include_weird_sums := false,
    fee_buffer_bps := 0 }

/-- Snapshot with cost 0.9 and positive edge 0.1, well above the opportunity
threshold of c6cfg. -/
def c6snap : MarketSnapshot :=
  { market := { venue := "Kalshi", market_id := "A1", question := "q",
                outcomes := ["Yes", "No"] },
    orderbook := { best_yes_price := some 0.4, best_yes_size := some 10,
                   best_no_price := some 0.5, best_no_size := some 10 } }

/-- The near-miss row the code produces for c6snap under c6cfg. -/
def c6row : NearMissRow :=
  { market_id := "A1", yes_ask := 0.4, no_ask := 0.5, sum_price := 0.9,
    edge := 0.1, executable_size := 10, flag := "OK" }

/-- Config with zero fee and thresholds min edge 0, min size 1. -/
def c7cfg : ScannerConfig :=
  { dry_run := true, mode := "lab", alert_only := false, alert_threshold := 0.02,
    min_edge_opportunity := 0, min_executable_size := 1, near_miss_edge_floor := -0.01,
    near_miss_edge_ceiling := none, near_miss_include_weird_sums := true,
    fee_buffer_bps := 0 }

/-- Snapshot whose yes side displays only 5 units. -/
def c7a : MarketSnapshot :=
  { market := { venue := "Kalshi", market_id := "A1", question := "q",
                outcomes := ["Yes", "No"] },
    orderbook := { best_yes_price := some 0.4, best_yes_size := some 5,
                   best_no_price := some 0.4, best_no_size := some 100 } }

/-- Snapshot with 100 units on both sides, paired with c7a by question. -/
def c7b : MarketSnapshot :=
  { market := { venue := "Polymarket", market_id := "B1", question := "q",
                outcomes := ["Yes", "No"] },
    orderbook := { best_yes_price := some 0.4, best_yes_size := some 100,
                   best_no_price := some 0.4, best_no_size := some 100 } }

/-- First emitted direction for the pair (c7a, c7b): executable size 5. -/
def c7opp1 : Opportunity :=
  { question := "q", outcomes := ["Yes", "No"], buy_yes_venue := "Kalshi",
    buy_yes_price := 0.4, buy_no_venue := "Polymarket", buy_no_price := 0.4,
    sum_price := 0.8, executable_size := 5, edge := 0.2 }

/-- Second emitted direction for the pair (c7a, c7b): executable size 100 at
the same edge. -/
def c7opp2 : Opportunity :=
  { question := "q", outcomes := ["Yes", "No"], buy_yes_venue := "Polymarket",
    buy_yes_price := 0.4, buy_no_venue := "Kalshi", buy_no_price := 0.4,
    sum_price := 0.8, executable_size := 100, edge := 0.2 }

/-- Snapshot with mixed-case question and yes/no outcomes. -/
def c8a : MarketSnapshot :=
  { market := { venue := "Kalshi", market_id := "A1", question := "Will It Rain",
                outcomes := ["Yes", "No"] },
    orderbook := { best_yes_price := some 0.4, best_yes_size := some 10,
                   best_no_price := some 0.4, best_no_size := some 10 } }

/-- Snapshot whose question normalizes to the same key as c8a but whose
outcome tuple is entirely different. -/
def c8b : MarketSnapshot :=
  { market := { venue := "Polymarket", market_id := "B1", question := "will  it rain",
                outcomes := ["Foo", "Bar"] },
    orderbook := { best_yes_price := some 0.5, best_yes_size := some 10,
                   best_no_price := some 0.5, best_no_size := some 10 } }

/-- A three-element universe. -/
def c9items : List String := ["a", "b", "c"]

/-- Plan with a negative sum_price, locking a negative cost of minus 1. -/
def c10plan : TradePlan :=
  { kind := "cross_venue", buf_edge := 0.01, sum_price := -1, size := 1,
    legs := (c2leg, c2leg), details := "" }

end ArbScanner

namespace ArbScanner

/-! ### Claim C5: the price normalizer -/

unseal Rat.add Rat.mul Rat.sub Rat.inv Rat.ofScientific in
/-- Claim C5 counterexample: the normalizer does not clamp. The input 150 is
normalized to 150 / 100 = 1.5, which is outside the unit interval, refuting
both the clamping step and the claimed range property. -/
theorem c5_no_clamp_counterexample :
    normalize_price_to_prob (some 150) = some (3 / 2) ∧ ¬ ((3 / 2 : ℚ) ≤ 1) := by
  decide

/-- Claim C5 (amended): the normalizer returns None for None, divides by 100
when the price exceeds 1, and passes the price through otherwise; it performs
no clamping, and its result lies in the unit interval whenever the input lies
in the interval from 0 to 100. -/
theorem c5_normalizer_amended (p : ℚ) :
    normalize_price_to_prob none = none ∧
      normalize_price_to_prob (some p) = some (if p > 1 then p / 100 else p) ∧
      (0 ≤ p → p ≤ 100 →
        normalize_price_to_prob (some p) = some (if p > 1 then p / 100 else p) ∧
          0 ≤ (if p > 1 then p / 100 else p) ∧ (if p > 1 then p / 100 else p) ≤ 1) := by
  refine ⟨rfl, ?_, ?_⟩
  · rw [normalize_price_to_prob]
    split <;> rfl
  · intro h0 h100
    refine ⟨by rw [normalize_price_to_prob]; split <;> rfl, ?_, ?_⟩
    · split
      · positivity
      · exact h0
    · split
      · rw [div_le_one (by norm_num)]
        exact h100
      · next h => linarith [not_lt.mp h]

unseal Rat.add Rat.mul Rat.sub Rat.inv Rat.ofScientific in
/-- Witness for the amended claim C5 at the concrete price 50 (normalized to
one half). -/
theorem c5_normalizer_amended_witness :
    (0 : ℚ) ≤ 50 ∧ (50 : ℚ) ≤ 100 ∧
      (normalize_price_to_prob (some 50) = some (if (50 : ℚ) > 1 then 50 / 100 else 50) ∧
        (0 : ℚ) ≤ (if (50 : ℚ) > 1 then (50 : ℚ) / 100 else 50) ∧
          (if (50 : ℚ) > 1 then (50 : ℚ) / 100 else 50) ≤ 1) :=
  ⟨by decide, by decide, (c5_normalizer_amended 50).2.2 (by decide) (by decide)⟩

/-! ### Claim C4: try_execute failure classification -/

/-- Claim C4 (amended): try_execute fails with an insufficient_liquidity reason
when a leg lacks liquidity; it fails with the insufficient_balance reason when
both legs have liquidity and the free balance net of cost would drop below the
floor (the liquidity check takes precedence when both preconditions fail); and
every failure leaves the state (balances, paper_trades, paper_orders) unchanged. -/
theorem c4_failure_classification (cfg : PaperConfig) (now : ℤ) (st : PaperState)
    (plan : TradePlan) :
    ((plan.legs.1.size_avail < plan.size ∨ plan.legs.2.size_avail < plan.size) →
      (try_execute cfg now st plan).2.1 = false ∧
        ∃ v m s, (try_execute cfg now st plan).2.2 = .insufficient_liquidity v m s) ∧
    (¬ plan.legs.1.size_avail < plan.size → ¬ plan.legs.2.size_avail < plan.size →
      st.free - plan.sum_price * plan.size < cfg.min_free_balance →
      (try_execute cfg now st plan).2.1 = false ∧
        (try_execute cfg now st plan).2.2 = .insufficient_balance) ∧
    ((try_execute cfg now st plan).2.1 = false → (try_execute cfg now st plan).1 = st) := by
  refine ⟨?_, ?_, ?_⟩
  · intro h
    unfold try_execute
    rcases Decidable.em (plan.legs.1.size_avail < plan.size) with h1 | h1
    · simp [h1]
    · rcases h with h | h2
      · exact absurd h h1
      · simp [h1, h2]
  · intro h1 h2 h3
    simp [try_execute, h1, h2, h3]
  · intro hfail
    simp only [try_execute] at hfail ⊢
    split_ifs at hfail ⊢ <;> simp_all

unseal Rat.add Rat.mul Rat.sub Rat.inv Rat.ofScientific in
/-- Claim C4 counterexample: with a plan failing both the liquidity and the
balance precondition, the returned reason is the liquidity one, not the
insufficient_balance reason the claim requires for a balance shortfall. -/
theorem c4_precedence_counterexample :
    (init_paper_state 0).free - c4plan.sum_price * c4plan.size < c4cfg.min_free_balance ∧
      (try_execute c4cfg 0 (init_paper_state 0) c4plan).2.1 = false ∧
      (try_execute c4cfg 0 (init_paper_state 0) c4plan).2.2 ≠ ExecReason.insufficient_balance := by
  decide

unseal Rat.add Rat.mul Rat.sub Rat.inv Rat.ofScientific in
/-- Witness for the amended claim C4, exercising the liquidity branch of the
theorem at a concrete plan whose first leg lacks liquidity. -/
theorem c4_failure_classification_witness :
    c4plan.legs.1.size_avail < c4plan.size ∧
      ((try_execute c4cfg 0 (init_paper_state 0) c4plan).2.1 = false ∧
        ∃ v m s, (try_execute c4cfg 0 (init_paper_state 0) c4plan).2.2 =
          ExecReason.insufficient_liquidity v m s) :=
  ⟨by decide,
    (c4_failure_classification c4cfg 0 (init_paper_state 0) c4plan).1 (Or.inl (by decide))⟩

/-! ### Claim C3: paper execution round trip -/

unseal Rat.add Rat.mul Rat.sub Rat.inv Rat.ofScientific in
/-- Claim C3: from free 1000, executing a plan with sum_price 0.97 and size 10
(legs with 50 available) succeeds and leaves free 990.3 and locked 9.7 with one
open trade of expected profit 0.3; settling at the settle window returns 1,
closes the trade, and leaves free 1000.3, locked 0, realized pnl 0.3. -/
theorem c3_round_trip :
    (try_execute c3cfg 0 (init_paper_state 1000) c3plan).2.1 = true ∧
      c3mid.free = 990.3 ∧ c3mid.locked = 9.7 ∧
      (open_trades c3mid.trades).length = 1 ∧
      sum_costs (open_trades c3mid.trades) = 9.7 ∧
      (open_trades c3mid.trades).map PaperTrade.expected_profit = [0.3] ∧
      (maybe_settle c3cfg 3600 c3mid).2 = 1 ∧
      open_trades (maybe_settle c3cfg 3600 c3mid).1.trades = [] ∧
      (maybe_settle c3cfg 3600 c3mid).1.free = 1000.3 ∧
      (maybe_settle c3cfg 3600 c3mid).1.locked = 0 ∧
      (maybe_settle c3cfg 3600 c3mid).1.realized_pnl = 0.3 := by
  decide

end ArbScanner

namespace ArbScanner

/-! ### Claim C1: opportunity emission per direction -/

unseal Rat.add Rat.mul Rat.sub Rat.inv Rat.ofScientific in
/-- Claim C1 counterexample: with min_executable_size set to 0, a direction
whose yes leg displays size 0 (size at most 0) still emits an Opportunity, so
the claimed unconditional size-zero skip does not hold. -/
theorem c1_size_skip_counterexample :
    size_or_zero c1a.orderbook.best_yes_size ≤ 0 ∧
      compute_opportunities [c1a] [c1b] c1cfg ≠ [] := by
  decide

/-- Claim C1 (amended): for a binary pair, compute_opportunities evaluates the
two directions; a direction with an absent price emits nothing, and a direction
with both prices present emits an Opportunity exactly when the buffered edge
of cost times fee_buffer_bps over ten thousand reaches min_edge (alert_threshold
under alert_only, min_edge_opportunity otherwise) and the executable size
(absent sizes taken as 0) reaches min_executable_size; a leg size of at most 0
therefore skips the direction only when min_executable_size is positive. -/
theorem c1_direction_emission (config : ScannerConfig) (a b : MarketSnapshot)
    (ha : a.market.is_binary = true) (hb : b.market.is_binary = true)
    (question : String) (outcomes : List String) (yv nv : String)
    (yp ys np ns : Option ℚ) :
    pair_opportunities config a b =
      (direction_opportunity config a.market.question a.market.outcomes a.market.venue
          a.orderbook.best_yes_price a.orderbook.best_yes_size b.market.venue
          b.orderbook.best_no_price b.orderbook.best_no_size).toList ++
        (direction_opportunity config a.market.question a.market.outcomes b.market.venue
          b.orderbook.best_yes_price b.orderbook.best_yes_size a.market.venue
          a.orderbook.best_no_price a.orderbook.best_no_size).toList ∧
    ((yp = none ∨ np = none) →
      direction_opportunity config question outcomes yv yp ys nv np ns = none) ∧
    (∀ y n, normalize_price_to_prob yp = some y → normalize_price_to_prob np = some n →
      ((direction_opportunity config question outcomes yv yp ys nv np ns).isSome = true ↔
        ((if config.alert_only then config.alert_threshold else config.min_edge_opportunity) ≤
            1 - (y + n) - (y + n) * ((config.fee_buffer_bps : ℚ) / 10000) ∧
          config.min_executable_size ≤ min (ys.getD 0) (ns.getD 0)))) := by
  refine ⟨by simp [pair_opportunities, ha, hb], ?_, ?_⟩
  · rintro (rfl | rfl) <;> simp [direction_opportunity, normalize_price_to_prob]
  · intro y n hy hn
    simp only [direction_opportunity, hy, hn, min_edge_for_opportunities, fee_buffer,
      size_or_zero]
    split
    · next hcond => simp [hcond]
    · next hcond => simp [hcond]

unseal Rat.add Rat.mul Rat.sub Rat.inv Rat.ofScientific in
/-- Witness for the amended claim C1 at the concrete binary pair (c1a, c1b)
with both prices present. -/
theorem c1_direction_emission_witness :
    c1a.market.is_binary = true ∧ c1b.market.is_binary = true ∧
      normalize_price_to_prob (some 0.4) = some 0.4 ∧
      ((direction_opportunity c1cfg "q" ["Yes", "No"] "Kalshi" (some 0.4) (some 0)
          "Polymarket" (some 0.4) (some 0)).isSome = true ↔
        ((if c1cfg.alert_only then c1cfg.alert_threshold else c1cfg.min_edge_opportunity) ≤
            1 - ((0.4 : ℚ) + 0.4) - ((0.4 : ℚ) + 0.4) * ((c1cfg.fee_buffer_bps : ℚ) / 10000) ∧
          c1cfg.min_executable_size ≤ min ((some (0 : ℚ)).getD 0) ((some (0 : ℚ)).getD 0))) :=
  ⟨by decide, by decide, by decide,
    (c1_direction_emission c1cfg c1a c1b (by decide) (by decide) "q" ["Yes", "No"]
        "Kalshi" "Polymarket" (some 0.4) (some 0) (some 0.4) (some 0)).2.2
      0.4 0.4 (by decide) (by decide)⟩

/-! ### Claim C6: intra-venue near-miss rows -/

unseal Rat.add Rat.mul Rat.sub Rat.inv Rat.ofScientific in
/-- Claim C6 counterexample: a snapshot whose buffered edge 0.1 is at or above
min_edge_opportunity 0 still yields a near-miss row, refuting the claimed
strict upper bound buf_edge below min_edge_opportunity. -/
theorem c6_no_upper_bound_counterexample :
    intra_near_miss_row c6cfg c6snap = some c6row ∧
      c6cfg.min_edge_opportunity ≤ c6row.edge := by
  decide

/-- Claim C6 (amended): for a binary snapshot with both prices present, an
intra-venue near-miss row is produced exactly when the buffered edge is at
least near_miss_edge_floor (no upper bound is applied), the executable size is
at least min_executable_size, and either the cost lies in the 0.90 to 1.10
window or near_miss_include_weird_sums is set; the row is flagged WEIRD_SUM
exactly when the cost is outside that window. -/
theorem c6_near_miss_characterization (config : ScannerConfig) (s : MarketSnapshot)
    (hbin : s.market.is_binary = true) (y n : ℚ)
    (hy : normalize_price_to_prob s.orderbook.best_yes_price = some y)
    (hn : normalize_price_to_prob s.orderbook.best_no_price = some n) :
    ((intra_near_miss_row config s).isSome = true ↔
      (config.near_miss_edge_floor ≤ 1 - (y + n) - fee_buffer (y + n) config ∧
        config.min_executable_size ≤
          min (size_or_zero s.orderbook.best_yes_size)
            (size_or_zero s.orderbook.best_no_size) ∧
        (normal_like_cost (y + n) ∨ config.near_miss_include_weird_sums = true))) ∧
    (∀ r, intra_near_miss_row config s = some r →
      r.edge = 1 - (y + n) - fee_buffer (y + n) config ∧ r.sum_price = y + n ∧
        (r.flag = "WEIRD_SUM" ↔ ¬ normal_like_cost (y + n))) := by
  constructor
  · simp only [intra_near_miss_row, hbin, hy, hn, if_true, near_miss_keep]
    split
    · next hweird =>
      simp only [Option.isSome_none, Bool.false_eq_true, false_iff]
      rintro ⟨-, -, hnorm | hinc⟩
      · exact hweird.1 hnorm
      · rw [hweird.2] at hinc
        exact Bool.false_ne_true hinc
    · next hweird =>
      rw [not_and_or, not_not] at hweird
      split
      · next hkeep =>
        simp only [Option.isSome_some, true_iff]
        refine ⟨hkeep.1, hkeep.2, ?_⟩
        rcases hweird with h | h
        · exact Or.inl h
        · exact Or.inr (by simpa using h)
      · next hkeep =>
        simp only [Option.isSome_none, Bool.false_eq_true, false_iff]
        rintro ⟨h1, h2, -⟩
        exact hkeep ⟨h1, h2⟩
  · intro r hr
    simp only [intra_near_miss_row, hbin, hy, hn, if_true] at hr
    split at hr
    · exact absurd hr (by simp)
    · split at hr
      · rcases Option.some.injEq .. ▸ hr with h
        cases h
        refine ⟨rfl, rfl, ?_⟩
        split
        · next hnorm => simp [hnorm]
        · next hnorm => simp [hnorm]
      · exact absurd hr (by simp)

unseal Rat.add Rat.mul Rat.sub Rat.inv Rat.ofScientific in
/-- Witness for the amended claim C6 at the concrete snapshot c6snap under
c6cfg. -/
theorem c6_near_miss_characterization_witness :
    c6snap.market.is_binary = true ∧
      normalize_price_to_prob c6snap.orderbook.best_yes_price = some 0.4 ∧
      normalize_price_to_prob c6snap.orderbook.best_no_price = some 0.5 ∧
      ((intra_near_miss_row c6cfg c6snap).isSome = true ↔
        (c6cfg.near_miss_edge_floor ≤
            1 - ((0.4 : ℚ) + 0.5) - fee_buffer ((0.4 : ℚ) + 0.5) c6cfg ∧
          c6cfg.min_executable_size ≤
            min (size_or_zero c6snap.orderbook.best_yes_size)
              (size_or_zero c6snap.orderbook.best_no_size) ∧
          (normal_like_cost ((0.4 : ℚ) + 0.5) ∨
            c6cfg.near_miss_include_weird_sums = true))) :=
  ⟨by decide, by decide, by decide,
    (c6_near_miss_characterization c6cfg c6snap (by decide) 0.4 0.5 (by decide)
        (by decide)).1⟩

end ArbScanner

namespace ArbScanner

/-! ### Claim C7: result ordering -/

unseal Rat.add Rat.mul Rat.sub Rat.inv Rat.ofScientific in
/-- Claim C7 counterexample: two opportunities with the same edge come out in
generation order, with the smaller executable size first, refuting the claimed
tie-break by larger executable size (and the market-id tie-break). -/
theorem c7_tie_break_counterexample :
    compute_opportunities [c7a] [c7b] c7cfg = [c7opp1, c7opp2] ∧
      c7opp1.edge = c7opp2.edge ∧ c7opp1.executable_size < c7opp2.executable_size := by
  decide

/-- Claim C7 (amended): the lists returned by compute_opportunities and by
compute_opportunities_from_mapping_pairs are sorted by edge descending and are
permutations of the respective generated lists; the sort key is the edge alone
(a stable sort), so ties keep generation order rather than being broken by
executable size or market id. -/
theorem c7_sorted_by_edge_desc (sa sb ks ps : List MarketSnapshot)
    (mappings : List MarketMapping) (config : ScannerConfig) :
    List.Sorted edge_ge (compute_opportunities sa sb config) ∧
      List.Perm (compute_opportunities sa sb config)
        (generated_opportunities sa sb config) ∧
      List.Sorted edge_ge (compute_opportunities_from_mapping_pairs ks ps mappings config) ∧
      List.Perm (compute_opportunities_from_mapping_pairs ks ps mappings config)
        (generated_mapping_opportunities ks ps mappings config) :=
  ⟨List.sorted_insertionSort edge_ge _, List.perm_insertionSort edge_ge _,
    List.sorted_insertionSort edge_ge _, List.perm_insertionSort edge_ge _⟩

/-! ### Claim C8: fallback pairing -/

unseal Rat.add Rat.mul Rat.sub Rat.inv Rat.ofScientific in
/-- Claim C8 counterexample: two snapshots whose questions normalize to the
same key are paired although their outcome tuples are entirely different, so
the pairing does not require identical outcome tuples. -/
theorem c8_outcomes_ignored_counterexample :
    iter_pairs [c8a] [c8b] = [(c8a, c8b)] ∧
      c8a.market.outcomes ≠ c8b.market.outcomes := by
  decide

/-- The venue-B index fold of iter_pairs returns the last matching snapshot of
the list, or the initial accumulator when none matches. -/
theorem question_index_foldl (key : String) (bs : List MarketSnapshot)
    (acc : Option MarketSnapshot) :
    bs.foldl
        (fun acc ms =>
          if normalize_question ms.market.question == key then some ms else acc) acc =
      match bs.reverse.find? (fun ms => normalize_question ms.market.question == key) with
      | some m => some m
      | none => acc := by
  induction bs generalizing acc with
  | nil => rfl
  | cons x bs ih =>
    rw [List.foldl_cons, ih, List.reverse_cons, List.find?_append]
    cases h : bs.reverse.find? (fun ms => normalize_question ms.market.question == key) with
    | some m => simp [Option.or]
    | none =>
      by_cases hp : normalize_question x.market.question == key
      · simp [Option.or, hp]
      · simp [Option.or, hp]

/-- The question-index lookup of iter_pairs finds exactly the last snapshot of
the venue-B list whose normalized question equals the key. -/
theorem question_index_lookup_eq_some (key : String) (bs : List MarketSnapshot)
    (b : MarketSnapshot) :
    question_index_lookup key bs = some b ↔
      normalize_question b.market.question = key ∧
        ∃ bs1 bs2, bs = bs1 ++ b :: bs2 ∧
          ∀ b2 ∈ bs2, normalize_question b2.market.question ≠ key := by
  rw [question_index_lookup, question_index_foldl]
  cases h : bs.reverse.find? (fun ms => normalize_question ms.market.question == key) with
  | none =>
    rw [List.find?_eq_none] at h
    constructor
    · intro hx
      exact Option.noConfusion hx
    · rintro ⟨hb, bs1, bs2, rfl, -⟩
      exfalso
      exact (by simpa using h b (by simp [List.mem_reverse]) : ¬ _) hb
  | some m =>
    constructor
    · intro hmb
      obtain rfl : m = b := by injection hmb
      obtain ⟨hpm, l1, l2, hrev, hl1⟩ := List.find?_eq_some.mp h
      refine ⟨by simpa using hpm, l2.reverse, l1.reverse, ?_, ?_⟩
      · have hb2 := congrArg List.reverse hrev
        simpa [List.reverse_append] using hb2
      · intro b2 hb2
        simpa using hl1 b2 (by simpa [List.mem_reverse] using hb2)
    · rintro ⟨hb, bs1, bs2, hdec, hafter⟩
      have hfind :
          bs.reverse.find? (fun ms => normalize_question ms.market.question == key) =
            some b := by
        rw [List.find?_eq_some]
        refine ⟨by simpa using hb, bs2.reverse, bs1.reverse, ?_, ?_⟩
        · rw [hdec]
          simp [List.reverse_append]
        · intro a ha
          simpa using hafter a (by simpa [List.mem_reverse] using ha)
      rw [h] at hfind
      exact hfind

/-- Claim C8 (amended): iter_pairs pairs a venue-A snapshot with a venue-B
snapshot exactly when the venue-A snapshot occurs in the first list and the
venue-B snapshot is the last element of the second list whose question,
lowercased with whitespace collapsed, matches that of the venue-A snapshot;
outcome tuples are not consulted at all. -/
theorem c8_pairing_by_question_only (as bs : List MarketSnapshot)
    (a b : MarketSnapshot) :
    (a, b) ∈ iter_pairs as bs ↔
      a ∈ as ∧
        normalize_question b.market.question = normalize_question a.market.question ∧
        ∃ bs1 bs2, bs = bs1 ++ b :: bs2 ∧
          ∀ b2 ∈ bs2,
            normalize_question b2.market.question ≠ normalize_question a.market.question := by
  rw [iter_pairs, List.mem_filterMap]
  constructor
  · rintro ⟨x, hx, hfx⟩
    rcases Option.map_eq_some'.mp hfx with ⟨z, hz, hxz⟩
    injection hxz with h1 h2
    subst h1
    subst h2
    have hc := (question_index_lookup_eq_some _ bs z).mp hz
    exact ⟨hx, hc.1, hc.2⟩
  · rintro ⟨ha, hb, bs1, bs2, hdec, hafter⟩
    refine ⟨a, ha, ?_⟩
    rw [(question_index_lookup_eq_some _ bs b).mpr ⟨hb, bs1, bs2, hdec, hafter⟩]
    rfl

end ArbScanner

namespace ArbScanner

/-! ### Claim C9: cursor coverage of the universe -/

/-- Reduction of a value below twice the modulus. -/
theorem mod_two_windows (a n : ℕ) (h : a < 2 * n) :
    a % n = if a < n then a else a - n := by
  split
  · next hlt => exact Nat.mod_eq_of_lt hlt
  · next hge =>
    rw [Nat.mod_eq_sub_mod (Nat.le_of_not_lt hge)]
    exact Nat.mod_eq_of_lt (by omega)

/-- For batch sizes at most the universe size, the batch of iter_batches is the
first batch_size items of the universe rotated to the cursor. -/
theorem iter_batches_fst (items : List String) (c B : ℕ) (hn : 0 < items.length)
    (hB : B ≤ items.length) :
    (iter_batches items c B).1 = (items.rotate (c % items.length)).take B := by
  have hnz : items.length ≠ 0 := Nat.pos_iff_ne_zero.mp hn
  have hs : c % items.length < items.length := Nat.mod_lt _ hn
  rw [iter_batches]
  simp only [hnz, if_false]
  rw [List.rotate_eq_drop_append_take (le_of_lt hs)]
  by_cases he : c % items.length + B ≤ items.length
  · rw [if_pos he, List.take_append_of_le_length (by simp [List.length_drop]; omega)]
    congr 1
    omega
  · rw [if_neg he]
    conv_rhs => rw [List.take_append_eq_append_take]
    have h1 : (items.drop (c % items.length)).length ≤ B := by
      rw [List.length_drop]; omega
    rw [List.take_of_length_le h1, List.take_take, List.length_drop]
    have h2 : (B - (items.length - c % items.length)) ⊓ (c % items.length) =
        c % items.length + B - items.length := by omega
    rw [h2]
    rw [mod_two_windows (c % items.length + B) items.length (by omega)]
    rw [if_neg (by omega)]

/-- The new cursor of iter_batches advances by batch_size modulo the universe
size. -/
theorem iter_batches_snd (items : List String) (c B : ℕ) (hn : 0 < items.length) :
    (iter_batches items c B).2 = (c % items.length + B) % items.length := by
  have hnz : items.length ≠ 0 := Nat.pos_iff_ne_zero.mp hn
  rw [iter_batches]
  simp only [hnz, if_false]

/-- A take of a drop is contained in the corresponding take of the rotation. -/
theorem drop_take_subset_rotate_take (l : List String) (B m : ℕ) (hB : B ≤ l.length) :
    (l.drop B).take m ⊆ (l.rotate B).take m := by
  rw [List.rotate_eq_drop_append_take hB, List.take_append_eq_append_take]
  intro x hx
  exact List.mem_append_left _ hx

/-- Every element among the first k times batch_size items of the universe
rotated to the cursor appears in the union of k successive batches. -/
theorem iter_batches_n_take_subset (items : List String) (B : ℕ)
    (hn : 0 < items.length) (hB : B ≤ items.length) :
    ∀ (k c : ℕ), (items.rotate (c % items.length)).take (k * B) ⊆
      iter_batches_n items c k B := by
  intro k
  induction k with
  | zero => intro c; simp [iter_batches_n]
  | succ k ih =>
    intro c x hx
    rw [iter_batches_n]
    have hkb : (k + 1) * B = B + k * B := by ring
    rw [hkb, List.take_add] at hx
    rcases List.mem_append.mp hx with h | h
    · exact List.mem_append_left _ ((iter_batches_fst items c B hn hB) ▸ h)
    · apply List.mem_append_right
      have hrot : items.rotate ((iter_batches items c B).2 % items.length) =
          (items.rotate (c % items.length)).rotate B := by
        rw [iter_batches_snd items c B hn, List.rotate_mod, List.rotate_mod,
          List.rotate_rotate]
      apply ih
      rw [hrot]
      exact drop_take_subset_rotate_take _ B (k * B)
        (by simp [List.length_rotate]; omega) h

/-- Claim C9 counterexample: with universe size 3 and batch size 5 starting
from cursor 2, the single call that the ceiling bound prescribes returns only
two of the three items; the middle item is never visited. -/
theorem c9_batch_gap_counterexample :
    "b" ∈ c9items ∧
      "b" ∉ iter_batches_n c9items 2 ((c9items.length + 5 - 1) / 5) 5 := by
  decide

/-- Claim C9 (amended): for a universe of size N at least 1 and a batch size B
with 0 < B ≤ N, starting from any initial cursor, the union of the batches of
the ceiling of N over B successive iter_batches calls (each receiving the
previous new cursor) contains every item of the universe. The restriction
B ≤ N is necessary: a batch larger than the universe is truncated by the
wrap-around slice and can skip items. -/
theorem c9_cursor_coverage (items : List String) (B c : ℕ) (hB : 0 < B)
    (hBn : B ≤ items.length) (x : String) (hx : x ∈ items) :
    x ∈ iter_batches_n items c ((items.length + B - 1) / B) B := by
  have hn : 0 < items.length := List.length_pos_of_mem hx
  have hdm := Nat.div_add_mod (items.length + B - 1) B
  have hmlt : (items.length + B - 1) % B < B := Nat.mod_lt _ hB
  have hk : items.length ≤ ((items.length + B - 1) / B) * B := by
    rw [Nat.mul_comm]
    generalize hq : B * ((items.length + B - 1) / B) = t at hdm
    omega
  apply iter_batches_n_take_subset items B hn hBn _ c
  rw [List.take_of_length_le (by rw [List.length_rotate]; exact hk)]
  rw [List.mem_rotate]
  exact hx

/-- Witness for the amended claim C9: universe of three items, batch size 2,
initial cursor 1; the two prescribed calls visit the item b. -/
theorem c9_cursor_coverage_witness :
    0 < 2 ∧ 2 ≤ c9items.length ∧ "b" ∈ c9items ∧
      "b" ∈ iter_batches_n c9items 1 ((c9items.length + 2 - 1) / 2) 2 :=
  ⟨by decide, by decide, by decide,
    c9_cursor_coverage c9items 2 1 (by decide) (by decide) "b" (by decide)⟩

end ArbScanner

namespace ArbScanner

/-! ### Claims C2 and C10: ledger invariants of the paper executor -/

theorem sum_costs_nil : sum_costs [] = 0 := rfl

theorem sum_costs_cons (t : PaperTrade) (l : List PaperTrade) :
    sum_costs (t :: l) = t.cost + sum_costs l := by
  simp [sum_costs]

theorem sum_costs_append (l1 l2 : List PaperTrade) :
    sum_costs (l1 ++ l2) = sum_costs l1 + sum_costs l2 := by
  simp [sum_costs]

theorem sum_costs_nonneg (l : List PaperTrade) (h : ∀ t ∈ l, 0 ≤ t.cost) :
    0 ≤ sum_costs l := by
  apply List.sum_nonneg
  intro x hx
  rcases List.mem_map.mp hx with ⟨t, ht, rfl⟩
  exact h t ht

theorem sum_costs_perm (l1 l2 : List PaperTrade) (h : List.Perm l1 l2) :
    sum_costs l1 = sum_costs l2 :=
  (h.map PaperTrade.cost).sum_eq

theorem open_trades_append (l1 l2 : List PaperTrade) :
    open_trades (l1 ++ l2) = open_trades l1 ++ open_trades l2 := by
  simp [open_trades, List.filter_append]

/-- try_execute preserves the ledger invariant for plans of non-negative cost. -/
theorem try_execute_inv (bankroll : ℚ) (cfg : PaperConfig) (now : ℤ) (st : PaperState)
    (plan : TradePlan) (hinv : ledger_inv bankroll st)
    (hc : 0 ≤ plan.sum_price * plan.size) :
    ledger_inv bankroll (try_execute cfg now st plan).1 := by
  simp only [try_execute]
  split_ifs with h1 h2 h3
  · exact hinv
  · exact hinv
  · exact hinv
  · obtain ⟨hbal, hlock, hpos, hnd, hbound⟩ := hinv
    refine ⟨?_, ?_, ?_, ?_, ?_⟩
    · dsimp only
      linarith
    · dsimp only
      rw [open_trades_append, sum_costs_append, hlock]
      simp [open_trades, sum_costs, PaperTrade.cost]
    · dsimp only
      rw [open_trades_append]
      intro t ht
      rcases List.mem_append.mp ht with h | h
      · exact hpos t h
      · simp only [open_trades, List.filter_cons, List.filter_nil] at h
        simp at h
        subst h
        simpa [PaperTrade.cost] using hc
    · dsimp only
      rw [List.map_append, List.nodup_append]
      refine ⟨hnd, by simp, ?_⟩
      intro a ha hmem
      rcases List.mem_map.mp ha with ⟨t, ht, rfl⟩
      have hlt := hbound t ht
      simp only [List.map_cons, List.map_nil, List.mem_singleton] at hmem
      omega
    · dsimp only
      intro t ht
      rcases List.mem_append.mp ht with h | h
      · have := hbound t h
        omega
      · rcases List.mem_singleton.mp h with rfl
        simp only
        omega

end ArbScanner

namespace ArbScanner

/-- The maybe_settle loop over a trade list whose costs are non-negative: when
the initial locked balance covers the listed costs plus a non-negative excess,
the clamp in settle_step never bites; the loop leaves the costs of the skipped
trades plus the excess locked, changes free plus locked by exactly the realized
profit, and appends the ids of the settled trades in order. -/
theorem settle_foldl_spec (cfg : PaperConfig) (now : ℤ) (L : List PaperTrade) :
    ∀ (acc : SettleAcc) (extra : ℚ),
      (∀ t ∈ L, 0 ≤ t.cost) → 0 ≤ extra → acc.locked = sum_costs L + extra →
      (L.foldl (settle_step cfg now) acc).locked =
          sum_costs
              (L.filter (fun u => decide (now - u.ts_open < cfg.settle_after_secs))) +
            extra ∧
        (L.foldl (settle_step cfg now) acc).free +
            (L.foldl (settle_step cfg now) acc).locked =
          acc.free + acc.locked + ((L.foldl (settle_step cfg now) acc).pnl - acc.pnl) ∧
        (L.foldl (settle_step cfg now) acc).closed_ids =
          acc.closed_ids ++
            (L.filter
                (fun u => decide (¬ now - u.ts_open < cfg.settle_after_secs))).map
              PaperTrade.trade_id := by
  induction L with
  | nil =>
    intro acc extra h0 hex hlock
    refine ⟨?_, by simp, by simp⟩
    rw [show sum_costs [] = 0 from rfl] at hlock
    simpa [sum_costs] using hlock
  | cons t L ih =>
    intro acc extra h0 hex hlock
    rw [List.foldl_cons]
    have hct : 0 ≤ t.cost := h0 t (List.mem_cons_self t L)
    have h0L : ∀ u ∈ L, 0 ≤ u.cost := fun u hu => h0 u (List.mem_cons_of_mem _ hu)
    by_cases hm : now - t.ts_open < cfg.settle_after_secs
    · have hstep : settle_step cfg now acc t = acc := by
        rw [settle_step, if_pos hm]
      rw [hstep]
      have hlock2 : acc.locked = sum_costs L + (extra + t.cost) := by
        rw [hlock, sum_costs_cons]
        ring
      have hres := ih acc (extra + t.cost) h0L (by linarith) hlock2
      refine ⟨?_, hres.2.1, ?_⟩
      · rw [hres.1, List.filter_cons_of_pos (by simpa using hm), sum_costs_cons]
        ring
      · rw [hres.2.2, List.filter_cons_of_neg (by simpa using hm)]
    · have hclamp : max 0 (acc.locked - t.cost) = acc.locked - t.cost := by
        have hL : 0 ≤ sum_costs L := sum_costs_nonneg L h0L
        rw [hlock, sum_costs_cons]
        apply max_eq_right
        linarith
      have hstep : settle_step cfg now acc t =
          ⟨acc.free + t.cost + t.expected_profit, acc.locked - t.cost,
            acc.pnl + t.expected_profit, acc.closed_ids ++ [t.trade_id]⟩ := by
        rw [settle_step, if_neg hm, hclamp]
      rw [hstep]
      have hlock2 : acc.locked - t.cost = sum_costs L + extra := by
        rw [hlock, sum_costs_cons]
        ring
      have hres := ih ⟨acc.free + t.cost + t.expected_profit, acc.locked - t.cost,
          acc.pnl + t.expected_profit, acc.closed_ids ++ [t.trade_id]⟩ extra h0L hex
        (by simpa using hlock2)
      refine ⟨?_, ?_, ?_⟩
      · rw [hres.1, List.filter_cons_of_neg (by simpa using hm)]
      · have h2 := hres.2.1
        dsimp only at h2
        linarith
      · rw [hres.2.2, List.filter_cons_of_pos (by simpa using hm)]
        simp

end ArbScanner

namespace ArbScanner

/-- Marking trades closed by id keeps exactly the open trades whose id was not
marked, unchanged. -/
theorem open_close_marked (now : ℤ) (ids : List ℕ) (trades : List PaperTrade) :
    open_trades (close_marked now ids trades) =
      (open_trades trades).filter (fun t => decide (t.trade_id ∉ ids)) := by
  induction trades with
  | nil => rfl
  | cons t ts ih =>
    simp only [close_marked, List.map_cons] at ih ⊢
    by_cases hid : t.trade_id ∈ ids <;> by_cases hopen : t.status = "open" <;>
      simp [open_trades, List.filter_cons, hid, hopen] at ih ⊢ <;>
      exact ih

/-- Marking trades closed does not change the stored trade ids. -/
theorem close_marked_map_id (now : ℤ) (ids : List ℕ) (trades : List PaperTrade) :
    (close_marked now ids trades).map PaperTrade.trade_id =
      trades.map PaperTrade.trade_id := by
  rw [close_marked, List.map_map]
  apply List.map_congr_left
  intro t _
  simp only [Function.comp_apply]
  split <;> rfl

end ArbScanner

namespace ArbScanner

/-- maybe_settle preserves the ledger invariant. -/
theorem maybe_settle_inv (bankroll : ℚ) (cfg : PaperConfig) (now : ℤ) (st : PaperState)
    (hinv : ledger_inv bankroll st) :
    ledger_inv bankroll (maybe_settle cfg now st).1 := by
  obtain ⟨hbal, hlock, hpos, hnd, hbound⟩ := hinv
  have hperm : List.Perm ((open_trades st.trades).insertionSort ts_le)
      (open_trades st.trades) := List.perm_insertionSort ts_le (open_trades st.trades)
  have hposS : ∀ t ∈ (open_trades st.trades).insertionSort ts_le, 0 ≤ t.cost :=
    fun t ht => hpos t (hperm.mem_iff.mp ht)
  have hTD := List.take_append_drop 10000 ((open_trades st.trades).insertionSort ts_le)
  have hposT : ∀ t ∈ ((open_trades st.trades).insertionSort ts_le).take 10000,
      0 ≤ t.cost := fun t ht => hposS t (List.mem_of_mem_take ht)
  have hposD : ∀ t ∈ ((open_trades st.trades).insertionSort ts_le).drop 10000,
      0 ≤ t.cost := fun t ht => hposS t (List.mem_of_mem_drop ht)
  have hlockS : st.locked =
      sum_costs (((open_trades st.trades).insertionSort ts_le).take 10000) +
        sum_costs (((open_trades st.trades).insertionSort ts_le).drop 10000) :=
    calc st.locked = sum_costs (open_trades st.trades) := hlock
      _ = sum_costs ((open_trades st.trades).insertionSort ts_le) :=
        (sum_costs_perm _ _ hperm).symm
      _ = sum_costs (((open_trades st.trades).insertionSort ts_le).take 10000 ++
          ((open_trades st.trades).insertionSort ts_le).drop 10000) := by rw [hTD]
      _ = _ := sum_costs_append _ _
  have hndopen : ((open_trades st.trades).map PaperTrade.trade_id).Nodup :=
    ((List.filter_sublist st.trades).map PaperTrade.trade_id).nodup hnd
  have hndS : (((open_trades st.trades).insertionSort ts_le).map
      PaperTrade.trade_id).Nodup := (hperm.map PaperTrade.trade_id).nodup_iff.mpr hndopen
  have hndT : ((((open_trades st.trades).insertionSort ts_le).take 10000).map
      PaperTrade.trade_id).Nodup :=
    ((List.take_sublist 10000 _).map PaperTrade.trade_id).nodup hndS
  have hfold := settle_foldl_spec cfg now
    (((open_trades st.trades).insertionSort ts_le).take 10000)
    ⟨st.free, st.locked, st.realized_pnl, []⟩
    (sum_costs (((open_trades st.trades).insertionSort ts_le).drop 10000))
    hposT (sum_costs_nonneg _ hposD) hlockS
  obtain ⟨hfl, hfb, hfi⟩ := hfold
  rw [List.nil_append] at hfi
  have hmemT : ∀ t ∈ ((open_trades st.trades).insertionSort ts_le).take 10000,
      (t.trade_id ∈
          ((((open_trades st.trades).insertionSort ts_le).take 10000).foldl
            (settle_step cfg now) ⟨st.free, st.locked, st.realized_pnl, []⟩).closed_ids ↔
        ¬ now - t.ts_open < cfg.settle_after_secs) := by
    intro t htT
    rw [hfi]
    constructor
    · intro hin
      rcases List.mem_map.mp hin with ⟨s, hs, hid⟩
      have hsT := List.mem_of_mem_filter hs
      have hst : s = t := List.inj_on_of_nodup_map hndT hsT htT hid
      subst hst
      simpa using List.of_mem_filter hs
    · intro hmat
      exact List.mem_map.mpr ⟨t, List.mem_filter.mpr ⟨htT, by simpa using hmat⟩, rfl⟩
  have hmemD : ∀ t ∈ ((open_trades st.trades).insertionSort ts_le).drop 10000,
      t.trade_id ∉
        ((((open_trades st.trades).insertionSort ts_le).take 10000).foldl
          (settle_step cfg now) ⟨st.free, st.locked, st.realized_pnl, []⟩).closed_ids := by
    intro t htD hin
    rw [hfi] at hin
    rcases List.mem_map.mp hin with ⟨s, hs, hid⟩
    have hsT := List.mem_of_mem_filter hs
    have happ : ((((open_trades st.trades).insertionSort ts_le).take 10000).map
        PaperTrade.trade_id ++
          (((open_trades st.trades).insertionSort ts_le).drop 10000).map
            PaperTrade.trade_id).Nodup := by
      rw [← List.map_append, hTD]
      exact hndS
    have hdisj := (List.nodup_append.mp happ).2.2
    exact hdisj (hid ▸ List.mem_map_of_mem PaperTrade.trade_id hsT)
      (List.mem_map_of_mem PaperTrade.trade_id htD)
  simp only [maybe_settle, paper_list_open_trades]
  refine ⟨?_, ?_, ?_, ?_, ?_⟩
  · dsimp only
    linarith
  · dsimp only
    rw [open_close_marked]
    calc (((((open_trades st.trades).insertionSort ts_le).take 10000).foldl
        (settle_step cfg now) ⟨st.free, st.locked, st.realized_pnl, []⟩).locked) =
        sum_costs ((((open_trades st.trades).insertionSort ts_le).take 10000).filter
            (fun u => decide (now - u.ts_open < cfg.settle_after_secs))) +
          sum_costs (((open_trades st.trades).insertionSort ts_le).drop 10000) := hfl
      _ = sum_costs ((open_trades st.trades).filter (fun t => decide (t.trade_id ∉
          ((((open_trades st.trades).insertionSort ts_le).take 10000).foldl
            (settle_step cfg now) ⟨st.free, st.locked, st.realized_pnl, []⟩).closed_ids))) := ?_
    have hfperm := hperm.filter (fun t => decide (t.trade_id ∉
      ((((open_trades st.trades).insertionSort ts_le).take 10000).foldl
        (settle_step cfg now) ⟨st.free, st.locked, st.realized_pnl, []⟩).closed_ids))
    rw [← sum_costs_perm _ _ hfperm]
    conv_rhs => rw [← hTD]
    rw [List.filter_append, sum_costs_append]
    congr 1
    · apply congrArg
      apply List.filter_congr
      intro t htT
      have := hmemT t htT
      by_cases hmat : now - t.ts_open < cfg.settle_after_secs
      · simp [hmat, this]
      · simp [hmat, this]
    · apply congrArg
      symm
      rw [List.filter_eq_self]
      intro t htD
      simpa using hmemD t htD
  · dsimp only
    rw [open_close_marked]
    intro t ht
    exact hpos t (List.mem_of_mem_filter ht)
  · dsimp only
    rw [close_marked_map_id]
    exact hnd
  · dsimp only
    intro t ht
    rw [close_marked] at ht
    rcases List.mem_map.mp ht with ⟨s, hsmem, rfl⟩
    have hb := hbound s hsmem
    split <;> simpa using hb

end ArbScanner

namespace ArbScanner

/-- One public operation preserves the ledger invariant when its plan cost is
non-negative. -/
theorem paper_step_inv (bankroll : ℚ) (cfg : PaperConfig) (st : PaperState)
    (op : PaperOp) (hinv : ledger_inv bankroll st) (hop : nonneg_cost_op op) :
    ledger_inv bankroll (paper_step cfg st op) := by
  cases op with
  | execute now plan => exact try_execute_inv bankroll cfg now st plan hinv hop
  | settle now => exact maybe_settle_inv bankroll cfg now st hinv

/-- The fresh ledger satisfies the invariant. -/
theorem init_paper_state_inv (bankroll : ℚ) :
    ledger_inv bankroll (init_paper_state bankroll) := by
  refine ⟨by simp [init_paper_state], ?_, ?_, ?_, ?_⟩ <;>
    simp [init_paper_state, open_trades, sum_costs]

/-- The ledger invariant holds after any sequence of operations with
non-negative plan costs. -/
theorem run_paper_ops_inv (bankroll : ℚ) (cfg : PaperConfig) (ops : List PaperOp)
    (h : ∀ op ∈ ops, nonneg_cost_op op) :
    ledger_inv bankroll (run_paper_ops cfg (init_paper_state bankroll) ops) := by
  rw [run_paper_ops]
  have hgen : ∀ (l : List PaperOp) (st : PaperState), ledger_inv bankroll st →
      (∀ op ∈ l, nonneg_cost_op op) → ledger_inv bankroll (l.foldl (paper_step cfg) st) := by
    intro l
    induction l with
    | nil => intro st hst _; exact hst
    | cons op l ih =>
      intro st hst hl
      rw [List.foldl_cons]
      exact ih (paper_step cfg st op)
        (paper_step_inv bankroll cfg st op hst (hl op (List.mem_cons_self ..)))
        (fun o ho => hl o (List.mem_cons_of_mem _ ho))
  exact hgen ops (init_paper_state bankroll) (init_paper_state_inv bankroll) h

unseal Rat.add Rat.mul Rat.sub Rat.inv Rat.ofScientific in
/-- Claim C2 counterexample: opening a positive-cost and a negative-cost trade
and settling both makes the clamp in maybe_settle discard part of the locked
balance, breaking the identity free + locked = bankroll + realized_pnl. -/
theorem c2_clamp_counterexample :
    ¬ ((run_paper_ops c2cfg (init_paper_state 1000) c2ops).free +
          (run_paper_ops c2cfg (init_paper_state 1000) c2ops).locked =
        1000 + (run_paper_ops c2cfg (init_paper_state 1000) c2ops).realized_pnl) := by
  decide

/-- Claim C2 (amended): for every sequence of try_execute and maybe_settle
operations from a fresh ledger with bankroll B in which every executed plan
locks a non-negative cost (sum_price times size at least 0), the stored
balances satisfy free + locked = B + realized_pnl after every step; without the
non-negative-cost restriction the clamp in maybe_settle can break the identity. -/
theorem c2_ledger_invariant (bankroll : ℚ) (cfg : PaperConfig) (ops : List PaperOp)
    (h : ∀ op ∈ ops, nonneg_cost_op op) :
    (run_paper_ops cfg (init_paper_state bankroll) ops).free +
        (run_paper_ops cfg (init_paper_state bankroll) ops).locked =
      bankroll + (run_paper_ops cfg (init_paper_state bankroll) ops).realized_pnl :=
  (run_paper_ops_inv bankroll cfg ops h).1

unseal Rat.add Rat.mul Rat.sub Rat.inv Rat.ofScientific in
/-- Witness for the amended claim C2: open one trade of cost 5 and settle it. -/
theorem c2_ledger_invariant_witness :
    nonneg_cost_op (.execute 0 c2planA) ∧ nonneg_cost_op (.settle 10000) ∧
      (run_paper_ops c2cfg (init_paper_state 1000)
            [.execute 0 c2planA, .settle 10000]).free +
          (run_paper_ops c2cfg (init_paper_state 1000)
            [.execute 0 c2planA, .settle 10000]).locked =
        1000 + (run_paper_ops c2cfg (init_paper_state 1000)
            [.execute 0 c2planA, .settle 10000]).realized_pnl :=
  ⟨by decide, by decide,
    c2_ledger_invariant 1000 c2cfg [.execute 0 c2planA, .settle 10000] (by
      intro op hop
      fin_cases hop <;> decide)⟩

unseal Rat.add Rat.mul Rat.sub Rat.inv Rat.ofScientific in
/-- Claim C10 counterexample: executing a plan with negative sum_price locks a
negative amount, so the stored locked balance goes negative after a single
try_execute from non-negative balances. -/
theorem c10_negative_locked_counterexample :
    (run_paper_ops c2cfg (init_paper_state 1000) [.execute 0 c10plan]).locked < 0 := by
  decide

/-- Claim C10 (amended): under the same non-negative-cost restriction on
executed plans, the stored locked balance is never negative after any sequence
of operations from a fresh ledger; and maybe_settle indeed clamps, setting
locked to max(0, locked - cost) for each settled trade. Without the
restriction, a negative-cost plan makes locked negative at once. -/
theorem c10_locked_nonneg (bankroll : ℚ) (cfg : PaperConfig) (ops : List PaperOp)
    (_hbk : 0 ≤ bankroll) (h : ∀ op ∈ ops, nonneg_cost_op op) :
    0 ≤ (run_paper_ops cfg (init_paper_state bankroll) ops).locked ∧
      ∀ (now : ℤ) (acc : SettleAcc) (t : PaperTrade),
        ¬ now - t.ts_open < cfg.settle_after_secs →
        (settle_step cfg now acc t).locked = max 0 (acc.locked - t.cost) := by
  constructor
  · have hinv := run_paper_ops_inv bankroll cfg ops h
    rw [hinv.2.1]
    exact sum_costs_nonneg _ hinv.2.2.1
  · intro now acc t hmat
    rw [settle_step, if_neg hmat]

unseal Rat.add Rat.mul Rat.sub Rat.inv Rat.ofScientific in
/-- Witness for the amended claim C10 at a concrete one-trade run. -/
theorem c10_locked_nonneg_witness :
    (0 : ℚ) ≤ 1000 ∧ nonneg_cost_op (.execute 0 c2planA) ∧
      0 ≤ (run_paper_ops c2cfg (init_paper_state 1000) [.execute 0 c2planA]).locked :=
  ⟨by decide, by decide,
    (c10_locked_nonneg 1000 c2cfg [.execute 0 c2planA] (by decide) (by
      intro op hop
      fin_cases hop
      decide)).1⟩

end ArbScanner
